import Mathlib

open scoped List

/-!
Verification of the PivotPoint-Podcast content pipeline.

Shallow embedding of the repository's core algorithms:
* `article_analyzer.py` — dynamic token-limit calculation, article selection;
* `audio_generator.py` / `elevenlabs_tts.py` — text chunking and audio chunk reassembly;
* `news_collector.py` — URL deduplication and relevance filtering;
* `article_enhancer.py` — cache lookup/put and per-article enhancement.

Python strings are modelled as `List Char`, byte files as `List Nat`,
Python `dict`-based articles as structures (a missing key with a `""`
default is identified with the empty string; keys whose absence behaves
differently from any present value are `Option`s).
-/

/- ### model_manager.py / article_analyzer.py : backend profiles -/

/-- A generative-backend profile as set up in `ArticleAnalyzer.__init__`:
`max_context_tokens`, `max_message_tokens`, `min_completion_tokens`, and
whether strict (precise/OpenAI) token limits apply
(`model_manager.should_apply_token_limits()`). -/
structure BackendProfile where
  maxContextTokens : Nat
  maxMessageTokens : Nat
  minCompletionTokens : Nat
  precise : Bool
deriving DecidableEq

/-- `ArticleAnalyzer.__init__` when `should_apply_token_limits()` is true
(OpenAI / GPT-4 branch). -/
def openaiAnalyzerProfile : BackendProfile :=
  { maxContextTokens := 8192
    maxMessageTokens := 6000
    minCompletionTokens := 500
    precise := true }

/-- `ArticleAnalyzer.__init__`, Gemini branch:
`max_context_tokens = model_manager.get_max_context_tokens() = 1048576`
(both `gemini` and `gemini-flash` set `max_input_tokens = 1048576`),
`max_message_tokens = min(500000, max_context_tokens // 2)`,
`min_completion_tokens = 8000`. -/
def geminiAnalyzerProfile : BackendProfile :=
  { maxContextTokens := 1048576
    maxMessageTokens := min 500000 (1048576 / 2)
    minCompletionTokens := 8000
    precise := false }

/-- `ArticleAnalyzer._calculate_dynamic_limits(system_prompt, user_prompt_base)`.
The two prompt token counts are computed by the Python code but never used in
the result.  All subtractions are on nonnegative quantities
(`completion_tokens ≤ max_context_tokens` and
`max_message_tokens ≤ max_context_tokens` at the points of use), so `Nat`
subtraction agrees with Python's `int` arithmetic here. -/
def calculateDynamicLimits (p : BackendProfile)
    (systemTokens baseUserTokens : Nat) : Nat × Nat :=
  -- system_tokens / base_user_tokens are only logged
  let _ := systemTokens
  let _ := baseUserTokens
  let completionTokens :=
    if p.precise then min 2000 (p.maxContextTokens / 3)
    else min p.minCompletionTokens (p.maxContextTokens / 4)
  let availableForMessages := p.maxContextTokens - completionTokens
  let maxMessageTokens := min p.maxMessageTokens availableForMessages
  let totalEstimated := maxMessageTokens + completionTokens
  if totalEstimated > p.maxContextTokens then
    let completionTokens' := max p.minCompletionTokens
      (p.maxContextTokens - maxMessageTokens)
    (maxMessageTokens, completionTokens')
  else
    (maxMessageTokens, completionTokens)

/- ### audio_generator.py / elevenlabs_tts.py : chunk reassembly -/

/-- `_simple_combine_chunks` (identical in `audio_generator.py` and
`elevenlabs_tts.py`): chunk files are modelled by their byte contents; the
loop writes the first file whole and, for every `i > 0`, first does
`infile.read(1024)` (consuming up to 1024 bytes) and writes the remainder. -/
def simpleCombineChunks (chunkFiles : List (List Nat)) : List Nat :=
  match chunkFiles with
  | [] => []
  | first :: rest => first ++ (rest.map (fun c => c.drop 1024)).flatten

/-- `_combine_audio_chunks`: raises on an empty list, moves a single chunk
unmodified to the final path, and byte-concatenates otherwise. -/
def combineAudioChunks (chunkFiles : List (List Nat)) : Except String (List Nat) :=
  match chunkFiles with
  | [] => .error "No chunk files to combine"
  | [single] => .ok single
  | files => .ok (simpleCombineChunks files)

/- ### Python string helpers (strings modelled as `List Char`).
The model restricts whitespace to the ASCII characters relevant here. -/

/-- Python whitespace test for `str.strip` / `str.split` / regex `\s`. -/
def isSpc (c : Char) : Bool := c == ' ' || c == '\t' || c == '\n' || c == '\r'

/-- Leading-whitespace removal. -/
def pyLStrip (s : List Char) : List Char := s.dropWhile isSpc

/-- Trailing-whitespace removal. -/
def pyRStrip (s : List Char) : List Char := (s.reverse.dropWhile isSpc).reverse

/-- Python `str.strip()`. `pyStrip s ≠ []` is the truthiness test
`if s.strip():`. -/
def pyStrip (s : List Char) : List Char := pyRStrip (pyLStrip s)

/-- Python `str.split()` with no separator: split on whitespace runs,
dropping empty tokens (`cur` is the current token, reversed). -/
def pyWordsAux : List Char → List Char → List (List Char)
  | [], cur => if cur.isEmpty then [] else [cur.reverse]
  | c :: rest, cur =>
    if isSpc c then
      if cur.isEmpty then pyWordsAux rest [] else cur.reverse :: pyWordsAux rest []
    else pyWordsAux rest (c :: cur)

/-- Python `sentence.split()`. -/
def pyWords (s : List Char) : List (List Char) := pyWordsAux s []

/-- Python `text.split('. ')`: left-to-right scan for non-overlapping
occurrences of the two-character separator. -/
def splitDotSpaceAux : List Char → List Char → List (List Char)
  | [], acc => [acc.reverse]
  | '.' :: ' ' :: rest, acc => acc.reverse :: splitDotSpaceAux rest []
  | c :: rest, acc => splitDotSpaceAux rest (c :: acc)

/-- Python `text.split('. ')`. -/
def splitDotSpace (s : List Char) : List (List Char) := splitDotSpaceAux s []

/- ### elevenlabs_tts.py : `_split_text_into_chunks` -/

/-- `ElevenLabsTTS.__init__` sets `self.max_chars = 1000`; the splitter below
is modelled with `self.max_chars` as an explicit parameter. -/
def elevenLabsMaxChars : Nat := 1000

/-- `if chunk.strip(): chunks.append(chunk.strip())` — flush a (word or
current) chunk onto the chunk list when its stripped form is non-empty. -/
def flushChunk (chunks : List (List Char)) (chunk : List Char) :
    List (List Char) :=
  if pyStrip chunk ≠ [] then chunks ++ [pyStrip chunk] else chunks

/-- The inner word-splitting loop of `_split_text_into_chunks` (run when a
single sentence exceeds `max_chars`): greedily accumulate `word + ' '` while
the running word chunk stays within the limit, else flush the stripped word
chunk and restart from the current word. Returns the chunk list and the
final `word_chunk`. -/
def wordLoop (maxChars : Nat) :
    List (List Char) → List (List Char) → List Char →
      List (List Char) × List Char
  | [], chunks, wc => (chunks, wc)
  | w :: ws, chunks, wc =>
    if (wc ++ w ++ [' ']).length ≤ maxChars then
      wordLoop maxChars ws chunks (wc ++ w ++ [' '])
    else
      wordLoop maxChars ws (flushChunk chunks wc) (w ++ [' '])

/-- After word-splitting an oversized sentence: the new chunk list, and the
new `current_chunk` (`word_chunk + '. '` when the word chunk survives the
strip test, empty otherwise). -/
def afterWordSplit (maxChars : Nat) (s : List Char)
    (chunks : List (List Char)) : List (List Char) × List Char :=
  ((wordLoop maxChars (pyWords s) chunks []).1,
   if pyStrip (wordLoop maxChars (pyWords s) chunks []).2 ≠ [] then
     (wordLoop maxChars (pyWords s) chunks []).2 ++ ['.', ' ']
   else [])

/-- The sentence loop of `_split_text_into_chunks`: for each sentence, grow
`current_chunk` with `sentence + '. '` while within `max_chars`; otherwise
flush the stripped current chunk, restart from `sentence + '. '`, and if
that alone exceeds `max_chars`, word-split the sentence. -/
def sentenceLoop (maxChars : Nat) :
    List (List Char) → List (List Char) → List Char →
      List (List Char) × List Char
  | [], chunks, cur => (chunks, cur)
  | s :: ss, chunks, cur =>
    if (cur ++ s ++ ['.', ' ']).length ≤ maxChars then
      sentenceLoop maxChars ss chunks (cur ++ s ++ ['.', ' '])
    else if maxChars < (s ++ ['.', ' ']).length then
      sentenceLoop maxChars ss (afterWordSplit maxChars s (flushChunk chunks cur)).1
        (afterWordSplit maxChars s (flushChunk chunks cur)).2
    else
      sentenceLoop maxChars ss (flushChunk chunks cur) (s ++ ['.', ' '])

/-- `ElevenLabsTTS._split_text_into_chunks(text)`: split on `'. '`, run the
sentence loop, append the stripped final current chunk, and fall back to the
whole stripped text when no chunk was produced. -/
def splitTextIntoChunks (maxChars : Nat) (text : List Char) :
    List (List Char) :=
  if flushChunk (sentenceLoop maxChars (splitDotSpace text) [] []).1
        (sentenceLoop maxChars (splitDotSpace text) [] []).2 = [] ∧
      pyStrip text ≠ [] then
    [pyStrip text]
  else
    flushChunk (sentenceLoop maxChars (splitDotSpace text) [] []).1
      (sentenceLoop maxChars (splitDotSpace text) [] []).2

/- ### A stable insertion sort modelling Python's stable `list.sort` -/

section StableSort

variable {α : Type} (le : α → α → Bool)

/-- Insertion step of a stable sort: insert `x` before the first element
`y` with `le x y`. -/
def orderedInsertBy (x : α) : List α → List α
  | [] => [x]
  | y :: ys => if le x y then x :: y :: ys else y :: orderedInsertBy x ys

/-- Stable insertion sort. For a total preorder `le` this is extensionally
equal to Python's stable `list.sort` (both outputs are sorted permutations
in which elements comparing equal keep their original relative order, and
those three properties determine the output uniquely). -/
def insertionSortBy : List α → List α
  | [] => []
  | x :: xs => orderedInsertBy le x (insertionSortBy xs)

end StableSort

/- ### news_collector.py : articles, URL deduplication, relevance filter -/

/-- An article dictionary as built by `NewsCollector.search_news` and
decorated by `collect_daily_news` / `filter_relevant_articles` /
`_extract_selected_articles`. Every string field is read through
`article.get(key, "")` (or is always present), so a missing key behaves as
`""` and fields are plain strings; `relevance_score` and
`selected_for_podcast` are written by later stages (the defaults model their
absence, and no code path reads them before writing them). `get('category',
'Unknown')` in the analyzer differs from the `""` default only in the label
it passes to `category_order.index`, and both labels are absent from the
canonical list, giving the same sort key. -/
structure NewsArticle where
  title : String := ""
  snippet : String := ""
  url : String := ""
  source : String := ""
  date : String := ""
  query : String := ""
  category : String := ""
  relevanceScore : Nat := 0
  selectedForPodcast : Bool := false
deriving DecidableEq

/-- The deduplication loop at the end of `collect_daily_news`:
`if url and url not in seen_urls: seen_urls.add(url);
unique_articles.append(article)` — note an article with an empty `url` is
dropped entirely. -/
def dedupByUrlAux (seen : List String) : List NewsArticle → List NewsArticle
  | [] => []
  | a :: rest =>
    if a.url ≠ "" ∧ a.url ∉ seen then a :: dedupByUrlAux (a.url :: seen) rest
    else dedupByUrlAux seen rest

/-- `collect_daily_news`'s URL deduplication over the merged per-query
article lists. -/
def dedupByUrl (articles : List NewsArticle) : List NewsArticle :=
  dedupByUrlAux [] articles

/- ### news_collector.py : `filter_relevant_articles` -/

/-- Python `str.lower()` (ASCII model, matching the keyword/text characters
in use). -/
def pyLower (s : List Char) : List Char := s.map Char.toLower

/-- Python substring test `pat in s` over `List Char`. -/
def pyInStr (pat : List Char) : List Char → Bool
  | [] => pat.isEmpty
  | c :: rest => pat.isPrefixOf (c :: rest) || pyInStr pat rest

/-- The scoring loop of `filter_relevant_articles`: count the configured
keywords `k` with `k in (title + " " + snippet).lower()`. Note the code
lowercases the article text but not the keyword. -/
def relevanceScoreOf (keywords : List String) (a : NewsArticle) : Nat :=
  keywords.countP
    (fun k => pyInStr k.toList (pyLower (a.title ++ " " ++ a.snippet).toList))

/-- Articles passing `score >= min_score`, with `relevance_score` written
onto the article (`article["relevance_score"] = score`). -/
def keptArticles (keywords : List String) (minScore : Nat)
    (articles : List NewsArticle) : List NewsArticle :=
  articles.filterMap (fun a =>
    if minScore ≤ relevanceScoreOf keywords a then
      some { a with relevanceScore := relevanceScoreOf keywords a }
    else none)

/-- The descending comparison behind
`scored_articles.sort(key=lambda x: x["relevance_score"], reverse=True)`. -/
def scoreDescLe (x y : NewsArticle) : Bool :=
  decide (y.relevanceScore ≤ x.relevanceScore)

/-- `NewsCollector.filter_relevant_articles` with the configured keyword
list, `min_relevance_score` (default 1) and `Config.MAX_ARTICLES` as
parameters: score, keep, stable-sort descending, truncate. -/
def filterRelevantArticles (keywords : List String) (minScore maxArticles : Nat)
    (articles : List NewsArticle) : List NewsArticle :=
  (insertionSortBy scoreDescLe (keptArticles keywords minScore articles)).take
    maxArticles

/-- The score as the claim words it — a case-insensitive match, i.e. both
keyword and text lowercased. Stated from the spec only to exhibit its
divergence from the code's `relevanceScoreOf`. -/
def claimedCaseInsensitiveScore (keywords : List String) (a : NewsArticle) : Nat :=
  keywords.countP
    (fun k => pyInStr (pyLower k.toList)
      (pyLower (a.title ++ " " ++ a.snippet).toList))

/- ### article_analyzer.py : `_extract_selected_articles` -/

/-- The fixed canonical `category_order` list. -/
def categoryOrder : List String :=
  ["APTs & Cyber-Espionage", "Arrests & Cybercrime", "Breaches & Incidents",
   "Cybersecurity IPOs", "Cybersecurity Funding", "Cybersecurity M&A"]

/-- `get_category_order(article)`: the index of the article's category in
the canonical list, or the list's length for an unknown category (the
`ValueError` branch puts unknown categories last). -/
def getCategoryOrder (a : NewsArticle) : Nat :=
  (categoryOrder.findIdx? (fun c => c == a.category)).getD categoryOrder.length

/-- Regex character class `[^\s\n]` of the URL patterns. -/
def isUrlChar (c : Char) : Bool := !isSpc c

/-- Match `lit` literally at the head of `s`, returning the rest. -/
def matchLiteral (lit s : List Char) : Option (List Char) :=
  if lit.isPrefixOf s then some (s.drop lit.length) else none

/-- Match the regex `https?://[^\s\n]+` at the head of `s`, returning the
captured URL and the rest. The `s?` branch is deterministic: consuming an
`s` can succeed only when one is present (the regex's backtracking
alternative `http://` requires a `:` where the `s` stands). -/
def matchUrl (s : List Char) : Option (List Char × List Char) :=
  match matchLiteral ['h', 't', 't', 'p'] s with
  | none => none
  | some s1 =>
    match s1 with
    | 's' :: r =>
      match matchLiteral [':', '/', '/'] r with
      | none => none
      | some s2 =>
        if (s2.takeWhile isUrlChar).isEmpty then none
        else some (['h', 't', 't', 'p', 's', ':', '/', '/'] ++
          s2.takeWhile isUrlChar, s2.dropWhile isUrlChar)
    | r =>
      match matchLiteral [':', '/', '/'] r with
      | none => none
      | some s2 =>
        if (s2.takeWhile isUrlChar).isEmpty then none
        else some (['h', 't', 't', 'p', ':', '/', '/'] ++
          s2.takeWhile isUrlChar, s2.dropWhile isUrlChar)

/-- `re.findall` for a pattern `lit(https?://[^\s\n]+)`: scan left to right,
emit the captured group on a match and continue after the match
(non-overlapping), else advance one character. `fuel` starts at the text
length; every step consumes at least one character, so the scan is exactly
the terminating left-to-right pass. -/
def findAllUrls (lit : List Char) : Nat → List Char → List (List Char)
  | 0, _ => []
  | _, [] => []
  | fuel + 1, c :: tail =>
    match (matchLiteral lit (c :: tail)).bind matchUrl with
    | some (cap, rest) => cap :: findAllUrls lit fuel rest
    | none => findAllUrls lit fuel tail

/-- `re.findall(pattern, text)` for the two URL marker patterns. -/
def findallPattern (lit : List Char) (text : List Char) : List (List Char) :=
  findAllUrls lit text.length text

/-- URL extraction in `_extract_selected_articles`: the primary bulleted
pattern `• \*\*URL:\*\* (https?://[^\s\n]+)`, falling back to the legacy
pattern `\*\*URL:\*\* (https?://[^\s\n]+)` when the primary finds nothing. -/
def selectedUrlsOf (analysisText : String) : List String :=
  match findallPattern "• **URL:** ".toList analysisText.toList with
  | [] => (findallPattern "**URL:** ".toList analysisText.toList).map
      (fun cs => String.mk cs)
  | urls => urls.map (fun cs => String.mk cs)

/-- `article.copy()` followed by `selected_for_podcast = True`. -/
def markSelected (a : NewsArticle) : NewsArticle :=
  { a with selectedForPodcast := true }

/-- The nested collection loops of `_extract_selected_articles`: for each
category (dict insertion order) and each of its articles, keep a selected
copy when `article.get('url', '')` occurs in the extracted URL list. -/
def collectSelected (selectedUrls : List String) :
    List (String × List NewsArticle) → List NewsArticle
  | [] => []
  | (_, arts) :: rest =>
    (arts.filter (fun a => selectedUrls.contains a.url)).map markSelected ++
      collectSelected selectedUrls rest

/-- The ascending stable comparison behind
`selected_articles.sort(key=get_category_order)`. -/
def catLe (x y : NewsArticle) : Bool :=
  decide (getCategoryOrder x ≤ getCategoryOrder y)

/-- `ArticleAnalyzer._extract_selected_articles(analysis_text,
articles_by_category)`; the grouped dict is an insertion-ordered
association list. -/
def extractSelectedArticles (analysisText : String)
    (articlesByCategory : List (String × List NewsArticle)) :
    List NewsArticle :=
  insertionSortBy catLe
    (collectSelected (selectedUrlsOf analysisText) articlesByCategory)

/- ### article_enhancer.py : cache and per-article enhancement -/

/-- An article as seen by `ArticleEnhancer.enhance_articles`. `url` is read
through `article.get('url', '')` (absence ≡ `""`); `snippet` is read with a
non-trivial default (`article.get('snippet', '(fetch failed)')`), so its
absence differs from the empty string and it is an `Option`; `summary` /
`enhancement_method` / `original_snippet` are keys the loop may write
(`none` models absence). The `uuid4` id assigned at step 1 is not modelled:
no claimed property reads it. -/
structure EnhArticle where
  title : Option String := none
  snippet : Option String := none
  url : String := ""
  summary : Option String := none
  enhanced : Bool := false
  enhancementMethod : Option String := none
  originalSnippet : Option String := none
deriving DecidableEq

/-- A row of the `article_cache` SQLite table (`url_hash` primary key);
`fetched_at` in hours. -/
structure CacheEntry where
  urlHash : String
  url : String
  summary : String
  fetchedAt : Int
deriving DecidableEq

/-- The mutable world of an enhancement run: the cache table (row order =
table order), the current time in hours, and counters of the external
fetch and generative calls performed (the claims' "zero additional
calls"). -/
structure EnhState where
  cache : List CacheEntry
  now : Int
  fetchCount : Nat
  genCount : Nat
deriving DecidableEq

/-- `SELECT summary FROM article_cache WHERE url_hash = ? AND fetched_at > ?`
followed by `fetchone()`: the first matching row's summary. -/
def cacheLookup (h : String) (cutoff : Int) (cache : List CacheEntry) :
    Option String :=
  (cache.find? (fun e => e.urlHash == h && decide (cutoff < e.fetchedAt))).map
    (fun e => e.summary)

/-- `ArticleEnhancer._get_cached_summary(url, max_age_hours)`: hash the URL,
compute `cutoff = now - max_age_hours`, query; any storage error (`dbFail`)
is caught and degrades to `None`. The state is returned unchanged — the
query never deletes or modifies rows. -/
def getCachedSummary (urlHash : String → String) (dbFail : Bool)
    (s : EnhState) (url : String) (maxAgeHours : Int) :
    Option String × EnhState :=
  if dbFail then (none, s)
  else (cacheLookup (urlHash url) (s.now - maxAgeHours) s.cache, s)

/-- `INSERT OR REPLACE INTO article_cache ...` of
`ArticleEnhancer._cache_summary`: drop any row with the same primary key,
insert the new row. -/
def cachePut (cache : List CacheEntry) (h url summary : String) (t : Int) :
    List CacheEntry :=
  cache.filter (fun e => !(e.urlHash == h)) ++
    [{ urlHash := h, url := url, summary := summary, fetchedAt := t }]

/-- `article.get('snippet', '(fetch failed)')`'s default. -/
def fetchFailedDefault : String := "(fetch failed)"

/-- The `_generate_gpt_summary` exception placeholder. -/
def genFailedPlaceholder : String := "(AI summary generation failed)"

/-- Python `str.strip()` on `String`. -/
def pyStripStr (s : String) : String := String.mk (pyStrip s.toList)

/-- Python `content.rfind('.')`: index of the last occurrence, `-1` when
absent. -/
def pyRFind (c : Char) (s : List Char) : Int :=
  match s.reverse.findIdx? (fun x => x == c) with
  | some i => (s.length : Int) - 1 - i
  | none => -1

/-- `ArticleEnhancer._trim_article_content`: skipped entirely for
approximate (Gemini) mode; otherwise trim to `max_article_tokens = 5000`
tokens ≈ 20000 characters, preferring to cut at the last period beyond
`0.8 * target_chars` (the float `20000 * 0.8` is exactly the integer
16000, so integer comparison is exact). `countTokens` models
`self._count_tokens` (tokenizer or character estimate). -/
def trimArticleContent (precise : Bool) (countTokens : String → Nat)
    (content : String) : String :=
  if !precise then content
  else if countTokens content ≤ 5000 then content
  else
    if 16000 < pyRFind '.' (content.toList.take 20000) then
      String.mk ((content.toList.take 20000).take
        ((pyRFind '.' (content.toList.take 20000)).toNat + 1))
    else String.mk (content.toList.take 20000)

/-- `ArticleEnhancer._generate_gpt_summary(article_text, per_article_budget)`:
`genOracle` models `model_manager.create_chat_completion` on the summary
prompts (a fixed system prompt parameterized by the budget and a user prompt
wrapping the article text — pure pass-through to the external backend, so
the prompt strings are elided); `none` models a raised exception, caught and
replaced by the literal placeholder; a returned summary is stripped. -/
def generateGptSummary (genOracle : String → Nat → Option String)
    (articleText : String) (budget : Nat) : String :=
  match genOracle articleText budget with
  | some summary => pyStripStr summary
  | none => genFailedPlaceholder

/-- `ArticleEnhancer._calculate_per_article_budget(num_articles)`. -/
def calculatePerArticleBudget (precise : Bool) (numArticles : Nat) : Nat :=
  if !precise then min 1000 (8000 / max 1 numArticles)
  else if numArticles ≤ 60 then 180
  else max 120 ((10600 - 800) / numArticles)

/-- One iteration of the `enhance_articles` loop over one article:
no-URL articles are kept unchanged (original snippet kept); a fresh cache
hit takes the summary with method `cache` and performs no external call; a
cache miss fetches (`fetchOracle`, `none` modelling every fetch/extraction
failure), falling back to the snippet with method `fetch_failed`; on fetched
content the trimmed text is summarized (one generative call, failure
included), the summary cached (`putFail` models a swallowed put error), and
the article marked `gpt_generated` with `original_snippet` preserved. -/
def enhanceOne (urlHash : String → String)
    (fetchOracle : String → Option String)
    (genOracle : String → Nat → Option String) (countTokens : String → Nat)
    (precise dbFail putFail : Bool) (budget : Nat)
    (a : EnhArticle) (s : EnhState) : EnhArticle × EnhState :=
  if a.url = "" then (a, s)
  else
    match (getCachedSummary urlHash dbFail s a.url 24).1 with
    | some cached =>
      ({ a with summary := some cached, enhanced := true,
                enhancementMethod := some "cache" }, s)
    | none =>
      match fetchOracle a.url with
      | none =>
        ({ a with summary := some (a.snippet.getD fetchFailedDefault),
                  enhanced := false,
                  enhancementMethod := some "fetch_failed" },
         { s with fetchCount := s.fetchCount + 1 })
      | some content =>
        ({ a with
            summary := some (generateGptSummary genOracle
              (trimArticleContent precise countTokens content) budget),
            enhanced := true,
            enhancementMethod := some "gpt_generated",
            originalSnippet := some (a.snippet.getD "") },
         { s with
            fetchCount := s.fetchCount + 1,
            genCount := s.genCount + 1,
            cache :=
              if putFail then s.cache
              else cachePut s.cache (urlHash a.url) a.url
                (generateGptSummary genOracle
                  (trimArticleContent precise countTokens content) budget)
                s.now })

/-- The `enhance_articles` loop over the article list, threading the
state. -/
def enhanceArticlesLoop (urlHash : String → String)
    (fetchOracle : String → Option String)
    (genOracle : String → Nat → Option String) (countTokens : String → Nat)
    (precise dbFail putFail : Bool) (budget : Nat) :
    List EnhArticle → EnhState → List EnhArticle × EnhState
  | [], s => ([], s)
  | a :: rest, s =>
    ((enhanceOne urlHash fetchOracle genOracle countTokens precise dbFail
        putFail budget a s).1 ::
      (enhanceArticlesLoop urlHash fetchOracle genOracle countTokens precise
        dbFail putFail budget rest
        (enhanceOne urlHash fetchOracle genOracle countTokens precise dbFail
          putFail budget a s).2).1,
     (enhanceArticlesLoop urlHash fetchOracle genOracle countTokens precise
        dbFail putFail budget rest
        (enhanceOne urlHash fetchOracle genOracle countTokens precise dbFail
          putFail budget a s).2).2)

/-- `ArticleEnhancer.enhance_articles(articles)`: empty input returned as
is, otherwise the loop with the computed per-article budget. -/
def enhanceArticles (urlHash : String → String)
    (fetchOracle : String → Option String)
    (genOracle : String → Nat → Option String) (countTokens : String → Nat)
    (precise dbFail putFail : Bool) (articles : List EnhArticle)
    (s : EnhState) : List EnhArticle × EnhState :=
  if articles.isEmpty then (articles, s)
  else
    enhanceArticlesLoop urlHash fetchOracle genOracle countTokens precise
      dbFail putFail (calculatePerArticleBudget precise articles.length)
      articles s

/- ### elevenlabs_tts.py : `_generate_chunked_audio` error handling -/

/-- The per-chunk synthesis loop of `_generate_chunked_audio`: `synth i
chunk` models `_generate_single_audio(chunk, temp_chunk_file_i)` returning
the chunk file path, `none` a raised API/network error. On the first
failure the code logs, cleans up the already-generated chunk files, and
re-raises — modelled by `.error` — abandoning all remaining chunks.
Returns the outcome together with the number of synthesis calls
performed. (`generate_audio_from_long_text` in `audio_generator.py`
likewise wraps no try/except around its per-chunk `generate_audio`
calls.) -/
def runSynthChunks (synth : Nat → List Char → Option String) :
    Nat → List (List Char) → Except String (List String) × Nat
  | _, [] => (.ok [], 0)
  | i, c :: cs =>
    match synth i c with
    | some file =>
      ((runSynthChunks synth (i + 1) cs).1.map (fun fs => file :: fs),
       (runSynthChunks synth (i + 1) cs).2 + 1)
    | none => (.error "chunk synthesis failed", 1)

/-- `ElevenLabsTTS._generate_chunked_audio(text)` up to the combine step:
split the text with `_split_text_into_chunks` (`maxChars` models
`self.max_chars`, hardcoded 1000) and synthesize the chunks in order. -/
def generateChunkedAudio (synth : Nat → List Char → Option String)
    (maxChars : Nat) (text : List Char) :
    Except String (List String) × Nat :=
  runSynthChunks synth 0 (splitTextIntoChunks maxChars text)

/- ### Theorems for C1 and C2 -/

theorem calcLimits_openai_eq (s u : Nat) :
    calculateDynamicLimits openaiAnalyzerProfile s u = (6000, 2000) := rfl

theorem calcLimits_gemini_eq (s u : Nat) :
    calculateDynamicLimits geminiAnalyzerProfile s u = (500000, 8000) := rfl

/-- Claim C1: for both backend profiles (precise/OpenAI and
approximate/Gemini) and every pair of input prompt token counts, the
returned `(max_message_tokens, completion_tokens)` satisfies
`max_message_tokens + completion_tokens ≤ max_context_tokens`, and the
completion budget is never below the configured minimum completion floor. -/
theorem C1_dynamic_limits_invariant (systemTokens baseUserTokens : Nat) :
    ((calculateDynamicLimits openaiAnalyzerProfile systemTokens baseUserTokens).1 +
       (calculateDynamicLimits openaiAnalyzerProfile systemTokens baseUserTokens).2 ≤
         openaiAnalyzerProfile.maxContextTokens ∧
     openaiAnalyzerProfile.minCompletionTokens ≤
       (calculateDynamicLimits openaiAnalyzerProfile systemTokens baseUserTokens).2) ∧
    ((calculateDynamicLimits geminiAnalyzerProfile systemTokens baseUserTokens).1 +
       (calculateDynamicLimits geminiAnalyzerProfile systemTokens baseUserTokens).2 ≤
         geminiAnalyzerProfile.maxContextTokens ∧
     geminiAnalyzerProfile.minCompletionTokens ≤
       (calculateDynamicLimits geminiAnalyzerProfile systemTokens baseUserTokens).2) := by
  rw [calcLimits_openai_eq, calcLimits_gemini_eq]
  refine ⟨⟨?_, ?_⟩, ⟨?_, ?_⟩⟩ <;> norm_num [openaiAnalyzerProfile, geminiAnalyzerProfile]

/-- Claim C2, counterexample to the claim as stated: with chunk byte
contents `[0,0]` and `[1]` (the second chunk shorter than the 1024-byte
header region), the combined output has 2 bytes, while the claimed formula
`sum of chunk sizes - 1024*(num_chunks-1)` gives `3 - 1024 ≠ 2`. -/
theorem C2_counterexample :
    combineAudioChunks [[0, 0], [1]] = .ok [0, 0] ∧
    ¬ (((simpleCombineChunks [[0, 0], [1]]).length : Int) =
        ((([[0, 0], [1]] : List (List Nat)).map List.length).sum : Int) -
          1024 * (([[0, 0], [1]] : List (List Nat)).length - 1)) := by
  constructor
  · rfl
  · decide

/-- Claim C2 as amended: provided every chunk after the first holds at least
1024 bytes, reassembly of two or more chunks concatenates the bytes in order
skipping the first 1024 bytes of every chunk after the first, so the output
byte count equals the sum of the chunk sizes minus `1024*(num_chunks-1)`;
a single chunk is moved to the final path byte-identical. -/
theorem C2_combine_chunks (files : List (List Nat))
    (h2 : 2 ≤ files.length)
    (hbig : ∀ c ∈ files.tail, 1024 ≤ c.length) :
    combineAudioChunks files = .ok (simpleCombineChunks files) ∧
    (simpleCombineChunks files).length + 1024 * (files.length - 1) =
      (files.map List.length).sum ∧
    ∀ c, combineAudioChunks [c] = .ok c := by
  refine ⟨?_, ?_, fun c => rfl⟩
  · match files, h2 with
    | a :: b :: rest, _ => rfl
  · match files, h2 with
    | a :: b :: rest, _ =>
      simp only [List.tail_cons] at hbig
      simp only [simpleCombineChunks, List.length_cons, List.map_cons, List.sum_cons,
        Nat.add_sub_cancel, List.length_append]
      have key : ∀ (l : List (List Nat)), (∀ c ∈ l, 1024 ≤ c.length) →
          ((l.map (fun c => c.drop 1024)).flatten).length + 1024 * l.length =
            (l.map List.length).sum := by
        intro l
        induction l with
        | nil => simp
        | cons x xs ih =>
          intro hx
          have hx1 : 1024 ≤ x.length := hx x (by simp)
          have hxs : ∀ c ∈ xs, 1024 ≤ c.length := fun c hc => hx c (by simp [hc])
          have ihxs := ih hxs
          simp only [List.map_cons, List.flatten_cons, List.length_append,
            List.sum_cons, List.length_drop, List.length_cons]
          omega
      have := key (b :: rest) hbig
      simp only [List.map_cons, List.sum_cons, List.length_cons] at this
      omega

/- ### Lemmas about stripping -/

theorem length_dropWhile_isSpc_le (s : List Char) :
    (s.dropWhile isSpc).length ≤ s.length :=
  (List.dropWhile_sublist isSpc).length_le

theorem length_pyRStrip_le (s : List Char) : (pyRStrip s).length ≤ s.length := by
  simpa [pyRStrip] using length_dropWhile_isSpc_le s.reverse

theorem length_pyStrip_le (s : List Char) : (pyStrip s).length ≤ s.length :=
  le_trans (length_pyRStrip_le _)
    (by simpa [pyLStrip] using length_dropWhile_isSpc_le s)

theorem dropWhile_isSpc_append_dotSpace (x : List Char) :
    (x ++ ['.', ' ']).dropWhile isSpc = x.dropWhile isSpc ++ ['.', ' '] := by
  induction x with
  | nil => decide
  | cons c x ih =>
    by_cases h : isSpc c <;> simp [List.dropWhile_cons, h, ih]

theorem pyRStrip_append_dotSpace (y : List Char) :
    pyRStrip (y ++ ['.', ' ']) = y ++ ['.'] := by
  have hd : isSpc '.' = false := by decide
  have hs : isSpc ' ' = true := by decide
  simp [pyRStrip, List.reverse_append, List.dropWhile_cons, hd, hs]

theorem pyStrip_append_dotSpace (x : List Char) :
    pyStrip (x ++ ['.', ' ']) = x.dropWhile isSpc ++ ['.'] := by
  rw [pyStrip, pyLStrip, dropWhile_isSpc_append_dotSpace, pyRStrip_append_dotSpace]

theorem length_pyStrip_dotSpace_le (x : List Char) :
    (pyStrip (x ++ ['.', ' '])).length ≤ x.length + 1 := by
  rw [pyStrip_append_dotSpace]
  simpa using Nat.add_le_add_right (length_dropWhile_isSpc_le x) 1

theorem pyStrip_nil : pyStrip [] = [] := rfl

theorem afterWordSplit_fst (maxChars : Nat) (s : List Char)
    (chunks : List (List Char)) :
    (afterWordSplit maxChars s chunks).1 =
      (wordLoop maxChars (pyWords s) chunks []).1 := rfl

theorem afterWordSplit_snd (maxChars : Nat) (s : List Char)
    (chunks : List (List Char)) :
    (afterWordSplit maxChars s chunks).2 =
      (if pyStrip (wordLoop maxChars (pyWords s) chunks []).2 ≠ [] then
        (wordLoop maxChars (pyWords s) chunks []).2 ++ ['.', ' ']
      else []) := rfl

theorem flushChunk_invariant {P : List Char → Prop}
    (chunks : List (List Char)) (chunk : List Char)
    (hchunks : ∀ c ∈ chunks, P c) (hchunk : P (pyStrip chunk)) :
    ∀ c ∈ flushChunk chunks chunk, P c := by
  intro c hc
  rw [flushChunk] at hc
  by_cases hne : pyStrip chunk ≠ []
  · rw [if_pos hne] at hc
    rcases List.mem_append.1 hc with hc | hc
    · exact hchunks c hc
    · rw [List.mem_singleton] at hc
      exact hc ▸ hchunk
  · rw [if_neg hne] at hc
    exact hchunks c hc

/- ### Invariants of the splitter loops -/

theorem wordLoop_invariant (maxChars : Nat) (ws : List (List Char))
    (chunks : List (List Char)) (wc : List Char)
    (hws : ∀ w ∈ ws, w.length + 1 ≤ maxChars)
    (hwc : wc.length ≤ maxChars)
    (hchunks : ∀ c ∈ chunks, c.length ≤ maxChars + 1) :
    (∀ c ∈ (wordLoop maxChars ws chunks wc).1, c.length ≤ maxChars + 1) ∧
    (wordLoop maxChars ws chunks wc).2.length ≤ maxChars := by
  induction ws generalizing chunks wc with
  | nil => exact ⟨hchunks, hwc⟩
  | cons w ws ih =>
    rw [wordLoop]
    have hws' : ∀ v ∈ ws, v.length + 1 ≤ maxChars :=
      fun v hv => hws v (List.mem_cons_of_mem _ hv)
    by_cases hlen : (wc ++ w ++ [' ']).length ≤ maxChars
    · rw [if_pos hlen]
      exact ih _ _ hws' hlen hchunks
    · rw [if_neg hlen]
      refine ih _ _ hws' ?_ ?_
      · simpa using hws w (List.mem_cons_self w ws)
      · exact flushChunk_invariant chunks wc hchunks
          (le_trans (le_trans (length_pyStrip_le wc) hwc) (Nat.le_succ _))

theorem sentenceLoop_invariant (maxChars : Nat) (ss : List (List Char))
    (chunks : List (List Char)) (cur : List Char)
    (hss : ∀ s ∈ ss, ∀ w ∈ pyWords s, w.length + 1 ≤ maxChars)
    (hcur : (pyStrip cur).length ≤ maxChars + 1)
    (hchunks : ∀ c ∈ chunks, c.length ≤ maxChars + 1) :
    (∀ c ∈ (sentenceLoop maxChars ss chunks cur).1, c.length ≤ maxChars + 1) ∧
    (pyStrip (sentenceLoop maxChars ss chunks cur).2).length ≤ maxChars + 1 := by
  induction ss generalizing chunks cur with
  | nil => exact ⟨hchunks, hcur⟩
  | cons s ss ih =>
    have hss' : ∀ t ∈ ss, ∀ w ∈ pyWords t, w.length + 1 ≤ maxChars :=
      fun t ht => hss t (List.mem_cons_of_mem _ ht)
    have hchunks1 : ∀ c ∈ flushChunk chunks cur, c.length ≤ maxChars + 1 :=
      flushChunk_invariant chunks cur hchunks hcur
    rw [sentenceLoop]
    by_cases htest : (cur ++ s ++ ['.', ' ']).length ≤ maxChars
    · rw [if_pos htest]
      refine ih _ _ hss' ?_ hchunks
      exact le_trans (le_trans (length_pyStrip_le _) htest) (Nat.le_succ _)
    · rw [if_neg htest]
      by_cases hbig : maxChars < (s ++ ['.', ' ']).length
      · rw [if_pos hbig]
        have hwl := wordLoop_invariant maxChars (pyWords s)
          (flushChunk chunks cur) []
          (fun w hw => hss s (List.mem_cons_self s ss) w hw)
          (Nat.zero_le _) hchunks1
        rw [afterWordSplit_fst, afterWordSplit_snd]
        refine ih _ _ hss' ?_ hwl.1
        by_cases hne : pyStrip (wordLoop maxChars (pyWords s)
            (flushChunk chunks cur) []).2 ≠ []
        · rw [if_pos hne]
          exact le_trans (length_pyStrip_dotSpace_le _)
            (Nat.add_le_add_right hwl.2 1)
        · rw [if_neg hne, pyStrip_nil]
          exact Nat.zero_le _
      · rw [if_neg hbig]
        refine ih _ _ hss' ?_ hchunks1
        have hle : (s ++ ['.', ' ']).length ≤ maxChars := Nat.le_of_not_lt hbig
        exact le_trans (le_trans (length_pyStrip_le _) hle) (Nat.le_succ _)

/- ### Properties of the stable insertion sort -/

section StableSort

variable {α : Type} (le : α → α → Bool)

theorem perm_orderedInsertBy (x : α) (l : List α) :
    orderedInsertBy le x l ~ x :: l := by
  induction l with
  | nil => exact List.Perm.refl _
  | cons y ys ih =>
    rw [orderedInsertBy]
    by_cases h : le x y = true
    · rw [if_pos h]
    · rw [if_neg h]
      exact (ih.cons y).trans (List.Perm.swap x y ys)

theorem perm_insertionSortBy (l : List α) : insertionSortBy le l ~ l := by
  induction l with
  | nil => exact List.Perm.refl _
  | cons x xs ih =>
    exact (perm_orderedInsertBy le x (insertionSortBy le xs)).trans (ih.cons x)

theorem pairwise_orderedInsertBy
    (htot : ∀ x y, le x y = true ∨ le y x = true)
    (htrans : ∀ x y z, le x y = true → le y z = true → le x z = true)
    (x : α) (l : List α)
    (hl : l.Pairwise (fun a b => le a b = true)) :
    (orderedInsertBy le x l).Pairwise (fun a b => le a b = true) := by
  induction l with
  | nil => simp [orderedInsertBy]
  | cons y ys ih =>
    rw [orderedInsertBy]
    rcases List.pairwise_cons.1 hl with ⟨hy, hys⟩
    by_cases h : le x y = true
    · rw [if_pos h]
      refine List.pairwise_cons.2 ⟨?_, hl⟩
      intro z hz
      rcases List.mem_cons.1 hz with rfl | hz
      · exact h
      · exact htrans x y z h (hy z hz)
    · rw [if_neg h]
      refine List.pairwise_cons.2 ⟨?_, ih hys⟩
      intro z hz
      have hz' := (perm_orderedInsertBy le x ys).mem_iff.1 hz
      rcases List.mem_cons.1 hz' with hzx | hz'
      · rcases htot x y with hxy | hyx
        · exact absurd hxy h
        · exact hzx.symm ▸ hyx
      · exact hy z hz'

theorem pairwise_insertionSortBy
    (htot : ∀ x y, le x y = true ∨ le y x = true)
    (htrans : ∀ x y z, le x y = true → le y z = true → le x z = true)
    (l : List α) :
    (insertionSortBy le l).Pairwise (fun a b => le a b = true) := by
  induction l with
  | nil => simp [insertionSortBy]
  | cons x xs ih => exact pairwise_orderedInsertBy le htot htrans x _ ih

theorem filter_orderedInsertBy_pos
    (htrans : ∀ x y z, le x y = true → le y z = true → le x z = true)
    (pivot x : α) (l : List α)
    (hx : (le pivot x && le x pivot) = true) :
    (orderedInsertBy le x l).filter (fun y => le pivot y && le y pivot) =
      x :: l.filter (fun y => le pivot y && le y pivot) := by
  induction l with
  | nil => simp [orderedInsertBy, hx]
  | cons y ys ih =>
    rw [orderedInsertBy]
    by_cases h : le x y = true
    · rw [if_pos h, List.filter_cons, if_pos hx]
    · rw [if_neg h]
      have hyneg : ¬ (le pivot y && le y pivot) = true := by
        intro hy
        simp only [Bool.and_eq_true] at hy hx
        exact h (htrans x pivot y hx.2 hy.1)
      rw [List.filter_cons, if_neg hyneg, List.filter_cons, if_neg hyneg, ih]

theorem filter_orderedInsertBy_neg (pivot x : α) (l : List α)
    (hx : ¬ (le pivot x && le x pivot) = true) :
    (orderedInsertBy le x l).filter (fun y => le pivot y && le y pivot) =
      l.filter (fun y => le pivot y && le y pivot) := by
  induction l with
  | nil => simp [orderedInsertBy, hx]
  | cons y ys ih =>
    rw [orderedInsertBy]
    by_cases h : le x y = true
    · rw [if_pos h, List.filter_cons, if_neg hx]
    · rw [if_neg h, List.filter_cons, List.filter_cons]
      by_cases hy : (le pivot y && le y pivot) = true
      · rw [if_pos hy, if_pos hy, ih]
      · rw [if_neg hy, if_neg hy, ih]

/-- Stability of `insertionSortBy`: each `le`-equivalence class keeps its
original relative order. -/
theorem filter_insertionSortBy
    (htrans : ∀ x y z, le x y = true → le y z = true → le x z = true)
    (pivot : α) (l : List α) :
    (insertionSortBy le l).filter (fun y => le pivot y && le y pivot) =
      l.filter (fun y => le pivot y && le y pivot) := by
  induction l with
  | nil => rfl
  | cons x xs ih =>
    rw [insertionSortBy]
    by_cases hx : (le pivot x && le x pivot) = true
    · rw [filter_orderedInsertBy_pos le htrans pivot x _ hx,
        List.filter_cons, if_pos hx, ih]
    · rw [filter_orderedInsertBy_neg le pivot x _ hx,
        List.filter_cons, if_neg hx, ih]

end StableSort

/-- Claim C3, counterexample to the claim as stated: with configured maximum
5, the text `abcdefg` is a single sentence exceeding the maximum, so it is
word-split; the single word itself exceeds the maximum and the resulting
sub-chunk (`abcdefg .`, length 9, the re-appended period included) does not
respect the maximum. (The same shape occurs at the hardcoded
`elevenLabsMaxChars = 1000` with a 1001-character word.) -/
theorem C3_counterexample :
    ∃ c ∈ splitTextIntoChunks 5 ['a', 'b', 'c', 'd', 'e', 'f', 'g'],
      5 < c.length := by decide

/-- Claim C3 as amended: provided every word of every sentence fits within
the configured maximum together with its trailing space, every chunk
produced by `_split_text_into_chunks` has length at most the maximum plus
one (the possible one-character excess being the sentence period re-appended
to the trailing word chunk of an oversized sentence) — except for the
fallback chunk, the whole stripped text, returned when no chunk was
produced (possible only for text without word content). Without the
word-size proviso a single word longer than the maximum yields an oversized
sub-chunk. -/
theorem C3_chunk_bound (maxChars : Nat) (text : List Char)
    (hw : ∀ s ∈ splitDotSpace text, ∀ w ∈ pyWords s, w.length + 1 ≤ maxChars) :
    ∀ c ∈ splitTextIntoChunks maxChars text,
      c.length ≤ maxChars + 1 ∨ c = pyStrip text := by
  intro c hc
  have hinv := sentenceLoop_invariant maxChars (splitDotSpace text) [] [] hw
    (by rw [pyStrip_nil]; exact Nat.zero_le _) (by intro d hd; simp at hd)
  rw [splitTextIntoChunks] at hc
  by_cases hfb : flushChunk (sentenceLoop maxChars (splitDotSpace text) [] []).1
      (sentenceLoop maxChars (splitDotSpace text) [] []).2 = [] ∧
      pyStrip text ≠ []
  · rw [if_pos hfb, List.mem_singleton] at hc
    exact Or.inr hc
  · rw [if_neg hfb] at hc
    exact Or.inl (flushChunk_invariant _ _ hinv.1 hinv.2 c hc)

theorem dedupByUrlAux_sublist (l : List NewsArticle) :
    ∀ seen, dedupByUrlAux seen l <+ l := by
  induction l with
  | nil => intro seen; simp [dedupByUrlAux]
  | cons a rest ih =>
    intro seen
    rw [dedupByUrlAux]
    by_cases h : a.url ≠ "" ∧ a.url ∉ seen
    · rw [if_pos h]
      exact (ih _).cons₂ a
    · rw [if_neg h]
      exact (ih _).cons a

theorem dedupByUrlAux_filter (u : String) (hu : u ≠ "") (l : List NewsArticle) :
    ∀ seen, (dedupByUrlAux seen l).filter (fun a => a.url == u) =
      if u ∈ seen then [] else (l.filter (fun a => a.url == u)).take 1 := by
  induction l with
  | nil =>
    intro seen
    by_cases h : u ∈ seen <;> simp [dedupByUrlAux, h]
  | cons a rest ih =>
    intro seen
    rw [dedupByUrlAux]
    by_cases hcond : a.url ≠ "" ∧ a.url ∉ seen
    · rw [if_pos hcond]
      by_cases hau : a.url = u
      · have hpos : (a.url == u) = true := by simp [hau]
        rw [List.filter_cons, if_pos hpos, ih (a.url :: seen),
          if_pos (by rw [← hau]; exact List.mem_cons_self a.url seen),
          if_neg (by rw [← hau]; exact hcond.2), List.filter_cons, if_pos hpos]
        rfl
      · have hneg : ¬ (a.url == u) = true := by simp [hau]
        rw [List.filter_cons, if_neg hneg, ih (a.url :: seen),
          List.filter_cons, if_neg hneg]
        by_cases hseen : u ∈ seen
        · rw [if_pos (List.mem_cons_of_mem _ hseen), if_pos hseen]
        · rw [if_neg (fun hmem => by
            rcases List.mem_cons.1 hmem with h1 | h1
            · exact hau h1.symm
            · exact hseen h1), if_neg hseen]
    · rw [if_neg hcond]
      rcases not_and_or.1 hcond with hurl | hseen'
      · have hae : a.url = "" := not_not.1 hurl
        have hneg : ¬ (a.url == u) = true := by simp [hae, Ne.symm hu]
        rw [ih seen, List.filter_cons, if_neg hneg]
      · have hseen : a.url ∈ seen := not_not.1 hseen'
        by_cases hau : a.url = u
        · rw [ih seen, if_pos (hau ▸ hseen), if_pos (hau ▸ hseen)]
        · have hneg : ¬ (a.url == u) = true := by simp [hau]
          rw [ih seen, List.filter_cons, if_neg hneg]

/-- Claim C4, counterexample to the claim as stated: an input article whose
`url` field is the empty string is dropped entirely by the collector's
deduplication (`if url and url not in seen_urls`), so its URL occurs zero
times — not exactly once — in the merged output. -/
theorem C4_counterexample :
    (([{ title := "t", snippet := "s" }] : List NewsArticle).countP
        (fun a => a.url == "") = 1) ∧
    (dedupByUrl [{ title := "t", snippet := "s" }]).countP
        (fun a => a.url == "") = 0 := by
  constructor <;> rfl

/-- Claim C4 as amended: for every non-empty URL, the collector's merged
output keeps exactly the first-seen article bearing that URL (fields
untouched) and no other; the output is a sublist of the input (first-seen
relative order preserved); so each non-empty URL present in the input occurs
exactly once. Articles with an empty `url` field are dropped entirely. -/
theorem C4_dedup (l : List NewsArticle) (u : String) (hu : u ≠ "") :
    dedupByUrl l <+ l ∧
    (dedupByUrl l).filter (fun a => a.url == u) =
      (l.filter (fun a => a.url == u)).take 1 ∧
    (dedupByUrl l).countP (fun a => a.url == u) =
      min 1 (l.countP (fun a => a.url == u)) := by
  have hfilter := dedupByUrlAux_filter u hu l []
  rw [if_neg (List.not_mem_nil u)] at hfilter
  refine ⟨dedupByUrlAux_sublist l [], hfilter, ?_⟩
  rw [List.countP_eq_length_filter, List.countP_eq_length_filter, dedupByUrl,
    hfilter, List.length_take, Nat.min_comm]

/-- Witness for `C4_dedup`: two articles sharing `http://a.com` and a third
with a distinct URL; the duplicate keeps only its first occurrence. -/
theorem C4_dedup_witness :
    ("http://a.com" ≠ "") ∧
    (dedupByUrl [{ title := "first", url := "http://a.com" },
        { title := "second", url := "http://a.com" },
        { title := "third", url := "http://b.com" }] <+
      [{ title := "first", url := "http://a.com" },
        { title := "second", url := "http://a.com" },
        { title := "third", url := "http://b.com" }] ∧
    (dedupByUrl [{ title := "first", url := "http://a.com" },
        { title := "second", url := "http://a.com" },
        { title := "third", url := "http://b.com" }]).filter
        (fun a => a.url == "http://a.com") =
      (([{ title := "first", url := "http://a.com" },
        { title := "second", url := "http://a.com" },
        { title := "third", url := "http://b.com" }] : List NewsArticle).filter
        (fun a => a.url == "http://a.com")).take 1 ∧
    (dedupByUrl [{ title := "first", url := "http://a.com" },
        { title := "second", url := "http://a.com" },
        { title := "third", url := "http://b.com" }]).countP
        (fun a => a.url == "http://a.com") =
      min 1 (([{ title := "first", url := "http://a.com" },
        { title := "second", url := "http://a.com" },
        { title := "third", url := "http://b.com" }] : List NewsArticle).countP
        (fun a => a.url == "http://a.com"))) :=
  ⟨by decide, C4_dedup _ _ (by decide)⟩

theorem scoreDescLe_total (x y : NewsArticle) :
    scoreDescLe x y = true ∨ scoreDescLe y x = true := by
  rcases Nat.le_total y.relevanceScore x.relevanceScore with h | h
  · exact Or.inl (by simpa [scoreDescLe] using h)
  · exact Or.inr (by simpa [scoreDescLe] using h)

theorem scoreDescLe_trans (x y z : NewsArticle)
    (hxy : scoreDescLe x y = true) (hyz : scoreDescLe y z = true) :
    scoreDescLe x z = true := by
  simp only [scoreDescLe, decide_eq_true_eq] at hxy hyz ⊢
  exact le_trans hyz hxy

/-- Claim C8, counterexample to the claim as stated: with configured keyword
`LockBit` (mixed case) and an article whose title contains exactly
`LockBit`, a case-insensitive match would score 1, but the code compares the
un-lowercased keyword against the lowercased text, scores 0, and drops the
article. -/
theorem C8_counterexample :
    claimedCaseInsensitiveScore ["LockBit"]
      { title := "LockBit ransomware", snippet := "attack" } = 1 ∧
    relevanceScoreOf ["LockBit"]
      { title := "LockBit ransomware", snippet := "attack" } = 0 ∧
    filterRelevantArticles ["LockBit"] 1 5
      [{ title := "LockBit ransomware", snippet := "attack" }] = [] := by
  refine ⟨by decide, by decide, by decide⟩

/-- Claim C8 as amended: each article is scored by the count of configured
keywords occurring verbatim as substrings of the lowercased
`title + " " + snippet` (so matching is case-insensitive in the article text
only; a keyword containing an uppercase letter never matches); exactly the
articles with `score ≥ min_relevance_score` are kept with their score
recorded, sorted descending by score with ties keeping original order
(stable), and the result truncated to `max_articles`. -/
theorem C8_relevance_filter (keywords : List String)
    (minScore maxArticles : Nat) (articles : List NewsArticle) :
    (filterRelevantArticles keywords minScore maxArticles articles).length ≤
      maxArticles ∧
    List.Pairwise (fun x y => y.relevanceScore ≤ x.relevanceScore)
      (filterRelevantArticles keywords minScore maxArticles articles) ∧
    (∀ a ∈ filterRelevantArticles keywords minScore maxArticles articles,
      minScore ≤ a.relevanceScore ∧
      ∃ a₀ ∈ articles, minScore ≤ relevanceScoreOf keywords a₀ ∧
        a = { a₀ with relevanceScore := relevanceScoreOf keywords a₀ }) ∧
    insertionSortBy scoreDescLe (keptArticles keywords minScore articles) ~
      keptArticles keywords minScore articles ∧
    ∀ pivot : NewsArticle,
      (insertionSortBy scoreDescLe
          (keptArticles keywords minScore articles)).filter
          (fun y => scoreDescLe pivot y && scoreDescLe y pivot) =
        (keptArticles keywords minScore articles).filter
          (fun y => scoreDescLe pivot y && scoreDescLe y pivot) := by
  have hperm := perm_insertionSortBy scoreDescLe
    (keptArticles keywords minScore articles)
  have hsorted := pairwise_insertionSortBy scoreDescLe scoreDescLe_total
    scoreDescLe_trans (keptArticles keywords minScore articles)
  refine ⟨?_, ?_, ?_, hperm,
    fun pivot => filter_insertionSortBy scoreDescLe scoreDescLe_trans pivot _⟩
  · rw [filterRelevantArticles, List.length_take]
    exact Nat.min_le_left _ _
  · have hs := hsorted.sublist (List.take_sublist maxArticles _)
    exact hs.imp (fun h => by
      simpa [scoreDescLe, decide_eq_true_eq] using h)
  · intro a ha
    have hmem : a ∈ keptArticles keywords minScore articles :=
      hperm.subset (List.take_subset _ _ ha)
    rw [keptArticles, List.mem_filterMap] at hmem
    obtain ⟨a₀, ha₀, hfa⟩ := hmem
    by_cases hsc : minScore ≤ relevanceScoreOf keywords a₀
    · rw [if_pos hsc] at hfa
      have hae := Option.some.inj hfa
      refine ⟨?_, a₀, ha₀, hsc, hae.symm⟩
      rw [← hae]
      exact hsc
    · rw [if_neg hsc] at hfa
      exact absurd hfa (by simp)

theorem catLe_total (x y : NewsArticle) :
    catLe x y = true ∨ catLe y x = true := by
  rcases Nat.le_total (getCategoryOrder x) (getCategoryOrder y) with h | h
  · exact Or.inl (by simpa [catLe] using h)
  · exact Or.inr (by simpa [catLe] using h)

theorem catLe_trans (x y z : NewsArticle)
    (hxy : catLe x y = true) (hyz : catLe y z = true) : catLe x z = true := by
  simp only [catLe, decide_eq_true_eq] at hxy hyz ⊢
  exact le_trans hxy hyz

theorem collectSelected_eq (urls : List String)
    (grouped : List (String × List NewsArticle)) :
    collectSelected urls grouped =
      ((grouped.map Prod.snd).flatten.filter
        (fun a => urls.contains a.url)).map markSelected := by
  induction grouped with
  | nil => rfl
  | cons p rest ih =>
    cases p with
    | mk cat arts =>
      rw [collectSelected, ih]
      simp [List.filter_append]

/-- Claim C5: `_extract_selected_articles` returns exactly the grouped input
articles whose URL occurs in the URL list extracted from the model response
(primary bulleted `**URL:**` pattern, legacy pattern when the primary
matches nothing), each as a copy flagged `selected_for_podcast = true`
(permutation conjunct); the result is ordered by the canonical category
index — unknown categories last, by `getCategoryOrder`'s fallback value —
and ties keep their original grouped order (stability conjunct). -/
theorem C5_extract_selected (analysisText : String)
    (grouped : List (String × List NewsArticle)) :
    (∀ a ∈ extractSelectedArticles analysisText grouped,
        a.selectedForPodcast = true) ∧
    (extractSelectedArticles analysisText grouped ~
      ((grouped.map Prod.snd).flatten.filter
        (fun a => (selectedUrlsOf analysisText).contains a.url)).map
        markSelected) ∧
    List.Pairwise (fun x y => getCategoryOrder x ≤ getCategoryOrder y)
      (extractSelectedArticles analysisText grouped) ∧
    ∀ pivot : NewsArticle,
      (extractSelectedArticles analysisText grouped).filter
          (fun y => catLe pivot y && catLe y pivot) =
        (((grouped.map Prod.snd).flatten.filter
            (fun a => (selectedUrlsOf analysisText).contains a.url)).map
            markSelected).filter
          (fun y => catLe pivot y && catLe y pivot) := by
  have hperm : extractSelectedArticles analysisText grouped ~
      ((grouped.map Prod.snd).flatten.filter
        (fun a => (selectedUrlsOf analysisText).contains a.url)).map
        markSelected := by
    rw [extractSelectedArticles, collectSelected_eq]
    exact perm_insertionSortBy catLe _
  refine ⟨?_, hperm, ?_, ?_⟩
  · intro a ha
    have hmem := hperm.subset ha
    rw [List.mem_map] at hmem
    obtain ⟨b, _, hb⟩ := hmem
    rw [← hb, markSelected]
  · have hs := pairwise_insertionSortBy catLe catLe_total catLe_trans
      (collectSelected (selectedUrlsOf analysisText) grouped)
    exact hs.imp (fun h => by simpa [catLe, decide_eq_true_eq] using h)
  · intro pivot
    rw [extractSelectedArticles,
      filter_insertionSortBy catLe catLe_trans pivot _, collectSelected_eq]

theorem getCachedSummary_false_eq (urlHash : String → String) (s : EnhState)
    (url : String) :
    getCachedSummary urlHash false s url 24 =
      (cacheLookup (urlHash url) (s.now - 24) s.cache, s) := rfl

theorem getCachedSummary_true_eq (urlHash : String → String) (s : EnhState)
    (url : String) :
    getCachedSummary urlHash true s url 24 = (none, s) := rfl

theorem cacheLookup_cachePut (cache : List CacheEntry) (h url sum : String)
    (t cutoff : Int) (hc : cutoff < t) :
    cacheLookup h cutoff (cachePut cache h url sum t) = some sum := by
  rw [cacheLookup, cachePut, List.find?_append]
  have hnone : (cache.filter (fun e => !(e.urlHash == h))).find?
      (fun e => e.urlHash == h && decide (cutoff < e.fetchedAt)) = none := by
    rw [List.find?_eq_none]
    intro e he
    have hmem := List.mem_filter.1 he
    simp only [Bool.not_eq_true'] at hmem
    simp [hmem.2]
  rw [hnone]
  simp [hc]

theorem find?_eq_some_of_mem_unique {p : CacheEntry → Bool} :
    ∀ (l : List CacheEntry) (e : CacheEntry), e ∈ l → p e = true →
      (∀ x ∈ l, p x = true → x = e) → l.find? p = some e := by
  intro l
  induction l with
  | nil => intro e he; cases he
  | cons x xs ih =>
    intro e he hpe huniq
    by_cases hx : p x = true
    · have hxe : x = e := huniq x (List.mem_cons_self x xs) hx
      rw [List.find?_cons_of_pos _ hx, hxe]
    · rw [List.find?_cons_of_neg _ hx]
      rcases List.mem_cons.1 he with hxe | he'
      · exact absurd (hxe ▸ hpe) hx
      · exact ih e he' hpe (fun y hy hpy => huniq y (List.mem_cons_of_mem _ hy) hpy)

/-- Claim C9: with an intact storage layer the cache `get` returns a stored
summary exactly when a row for `hash(url)` exists with `fetched_at` strictly
newer than `now - 24h` (so a present-but-stale row behaves as absent); a
storage error degrades to a miss instead of raising; and the lookup leaves
the cache state untouched (no row is deleted). The hash-uniqueness
hypothesis is the table's primary-key invariant. -/
theorem C9_cache_get (urlHash : String → String) (dbFail : Bool)
    (s : EnhState) (url sum : String)
    (hdistinct : s.cache.Pairwise (fun e1 e2 => e1.urlHash ≠ e2.urlHash)) :
    (dbFail = false →
      ((getCachedSummary urlHash dbFail s url 24).1 = some sum ↔
        ∃ e ∈ s.cache, e.urlHash = urlHash url ∧
          s.now - 24 < e.fetchedAt ∧ e.summary = sum)) ∧
    (dbFail = true → (getCachedSummary urlHash dbFail s url 24).1 = none) ∧
    (getCachedSummary urlHash dbFail s url 24).2 = s := by
  refine ⟨?_, ?_, ?_⟩
  · intro hdb
    subst hdb
    rw [getCachedSummary_false_eq]
    constructor
    · intro hsome
      rw [cacheLookup] at hsome
      rw [Option.map_eq_some'] at hsome
      obtain ⟨e, hfind, hesum⟩ := hsome
      have hmem := List.mem_of_find?_eq_some hfind
      have hpred := List.find?_some hfind
      simp only [Bool.and_eq_true, beq_iff_eq, decide_eq_true_eq] at hpred
      exact ⟨e, hmem, hpred.1, hpred.2, hesum⟩
    · intro hex
      obtain ⟨e, hmem, hhash, hfresh, hesum⟩ := hex
      rw [cacheLookup, find?_eq_some_of_mem_unique s.cache e hmem
        (by simp [hhash, hfresh]) ?_, Option.map_some', hesum]
      intro x hx hpx
      simp only [Bool.and_eq_true, beq_iff_eq, decide_eq_true_eq] at hpx
      by_contra hne
      exact (hdistinct.forall (fun a b hab => (Ne.symm hab)) hx hmem hne)
        (hpx.1.trans hhash.symm)
  · intro hdb
    subst hdb
    rw [getCachedSummary_true_eq]
  · cases dbFail
    · rw [getCachedSummary_false_eq]
    · rw [getCachedSummary_true_eq]

/-- Witness for `C9_cache_get`: a one-row cache with a fresh entry. -/
theorem C9_cache_get_witness :
    (([⟨"http://x", "http://x", "cached brief", 0⟩] :
        List CacheEntry).Pairwise (fun e1 e2 => e1.urlHash ≠ e2.urlHash)) ∧
    ((false = false →
      ((getCachedSummary (fun u => u) false
          ({ cache := [⟨"http://x", "http://x", "cached brief", 0⟩],
             now := 10, fetchCount := 0, genCount := 0 } : EnhState)
          "http://x" 24).1 =
          some "cached brief" ↔
        ∃ e ∈ ({ cache := [⟨"http://x", "http://x", "cached brief", 0⟩],
                 now := 10, fetchCount := 0, genCount := 0 } : EnhState).cache,
          e.urlHash = (fun u => u) "http://x" ∧
          ({ cache := [⟨"http://x", "http://x", "cached brief", 0⟩],
             now := 10, fetchCount := 0, genCount := 0 } : EnhState).now - 24 <
            e.fetchedAt ∧ e.summary = "cached brief")) ∧
    (false = true →
      (getCachedSummary (fun u => u) false
          ({ cache := [⟨"http://x", "http://x", "cached brief", 0⟩],
             now := 10, fetchCount := 0, genCount := 0 } : EnhState)
          "http://x" 24).1 =
        none) ∧
    (getCachedSummary (fun u => u) false
        ({ cache := [⟨"http://x", "http://x", "cached brief", 0⟩],
           now := 10, fetchCount := 0, genCount := 0 } : EnhState)
        "http://x" 24).2 =
      ({ cache := [⟨"http://x", "http://x", "cached brief", 0⟩],
         now := 10, fetchCount := 0, genCount := 0 } : EnhState)) :=
  ⟨by decide, C9_cache_get (fun u => u) false _ "http://x" "cached brief"
    (by decide)⟩

/-- Claim C6: for an article with a URL whose first enhancement pass was a
cache miss followed by a successful fetch (so the pass performed the fetch
and generative calls and cached the produced summary), re-enhancing the same
article from the resulting state within the freshness window (`d < 24`
hours later) is a pure cache hit: the state — in particular the fetch and
generative call counters and the cache — is returned untouched (zero
additional external calls), the method is `cache`, and the summary is
byte-identical to the first pass's. -/
theorem C6_cache_idempotent (urlHash : String → String)
    (fetchOracle : String → Option String)
    (genOracle : String → Nat → Option String) (countTokens : String → Nat)
    (precise : Bool) (budget : Nat) (a : EnhArticle) (s : EnhState)
    (d : Int) (a1 : EnhArticle) (s1 : EnhState)
    (hurl : a.url ≠ "")
    (hmiss : (getCachedSummary urlHash false s a.url 24).1 = none)
    (hfetch : fetchOracle a.url ≠ none)
    (hd0 : 0 ≤ d) (hd : d < 24)
    (hp1 : enhanceOne urlHash fetchOracle genOracle countTokens precise
      false false budget a s = (a1, s1)) :
    enhanceOne urlHash fetchOracle genOracle countTokens precise false false
        budget a { s1 with now := s1.now + d } =
      ({ a with summary := a1.summary, enhanced := true,
                enhancementMethod := some "cache" },
       { s1 with now := s1.now + d }) := by
  cases hcv : fetchOracle a.url with
  | none => exact absurd hcv hfetch
  | some content =>
    have hpass1 : enhanceOne urlHash fetchOracle genOracle countTokens precise
        false false budget a s =
      ({ a with
          summary := some (generateGptSummary genOracle
            (trimArticleContent precise countTokens content) budget),
          enhanced := true,
          enhancementMethod := some "gpt_generated",
          originalSnippet := some (a.snippet.getD "") },
       { s with
          fetchCount := s.fetchCount + 1,
          genCount := s.genCount + 1,
          cache := cachePut s.cache (urlHash a.url) a.url
            (generateGptSummary genOracle
              (trimArticleContent precise countTokens content) budget)
            s.now }) := by
      rw [enhanceOne, if_neg hurl, hmiss, hcv]
      rfl
    have hps := hpass1.symm.trans hp1
    injection hps with ha1 hs1
    subst ha1
    subst hs1
    have hlookup : (getCachedSummary urlHash false
        { cache := cachePut s.cache (urlHash a.url) a.url
            (generateGptSummary genOracle
              (trimArticleContent precise countTokens content) budget) s.now,
          now := s.now + d, fetchCount := s.fetchCount + 1,
          genCount := s.genCount + 1 } a.url 24).1 =
        some (generateGptSummary genOracle
          (trimArticleContent precise countTokens content) budget) := by
      rw [getCachedSummary_false_eq]
      exact cacheLookup_cachePut s.cache (urlHash a.url) a.url _ s.now
        (s.now + d - 24) (by omega)
    rw [enhanceOne, if_neg hurl, hlookup]

/-- Witness for `C6_cache_idempotent` at a concrete run: one article, empty
initial cache, oracles returning fixed content, second pass one hour
later. -/
theorem C6_cache_idempotent_witness :
    (({ url := "http://x.com" } : EnhArticle).url ≠ "") ∧
    ((getCachedSummary (fun u => u) false
        ({ cache := [], now := 0, fetchCount := 0, genCount := 0 } : EnhState)
        ({ url := "http://x.com" } : EnhArticle).url 24).1 = none) ∧
    ((fun _ => some "fetched body") ({ url := "http://x.com" } :
        EnhArticle).url ≠ (none : Option String)) ∧
    ((0 : Int) ≤ 1) ∧ ((1 : Int) < 24) ∧
    (enhanceOne (fun u => u) (fun _ => some "fetched body")
        (fun _ _ => some "the brief") (fun _ => 0) false false false 180
        ({ url := "http://x.com" } : EnhArticle)
        ({ cache := [], now := 0, fetchCount := 0, genCount := 0 } : EnhState) =
      ({ url := "http://x.com", summary := some "the brief", enhanced := true,
         enhancementMethod := some "gpt_generated",
         originalSnippet := some "" },
       { cache := [⟨"http://x.com", "http://x.com", "the brief", 0⟩],
         now := 0, fetchCount := 1, genCount := 1 })) ∧
    (enhanceOne (fun u => u) (fun _ => some "fetched body")
        (fun _ _ => some "the brief") (fun _ => 0) false false false 180
        ({ url := "http://x.com" } : EnhArticle)
        ({ cache := [⟨"http://x.com", "http://x.com", "the brief", 0⟩],
           now := 0 + 1, fetchCount := 1, genCount := 1 } : EnhState) =
      ({ url := "http://x.com", summary := some "the brief", enhanced := true,
         enhancementMethod := some "cache" },
       ({ cache := [⟨"http://x.com", "http://x.com", "the brief", 0⟩],
          now := 0 + 1, fetchCount := 1, genCount := 1 } : EnhState))) :=
  ⟨by decide, by decide, by decide, by decide, by decide, by decide,
    C6_cache_idempotent (fun u => u) (fun _ => some "fetched body")
      (fun _ _ => some "the brief") (fun _ => 0) false 180
      { url := "http://x.com" }
      { cache := [], now := 0, fetchCount := 0, genCount := 0 } 1
      { url := "http://x.com", summary := some "the brief", enhanced := true,
        enhancementMethod := some "gpt_generated", originalSnippet := some "" }
      { cache := [⟨"http://x.com", "http://x.com", "the brief", 0⟩],
        now := 0, fetchCount := 1, genCount := 1 }
      (by decide) (by decide) (by decide) (by decide) (by decide)
      (by decide)⟩

theorem generateGptSummary_ne_empty (genOracle : String → Nat → Option String)
    (t : String) (budget : Nat)
    (hgen : ∀ u b r, genOracle u b = some r → pyStripStr r ≠ "") :
    generateGptSummary genOracle t budget ≠ "" := by
  rw [generateGptSummary]
  cases hr : genOracle t budget with
  | some r => exact hgen t budget r hr
  | none => decide

theorem enhanceOne_cache_nonempty (urlHash : String → String)
    (fetchOracle : String → Option String)
    (genOracle : String → Nat → Option String) (countTokens : String → Nat)
    (precise dbFail putFail : Bool) (budget : Nat)
    (a : EnhArticle) (s : EnhState)
    (hc : ∀ e ∈ s.cache, e.summary ≠ "")
    (hgen : ∀ u b r, genOracle u b = some r → pyStripStr r ≠ "") :
    ∀ e ∈ (enhanceOne urlHash fetchOracle genOracle countTokens precise
      dbFail putFail budget a s).2.cache, e.summary ≠ "" := by
  rw [enhanceOne]
  by_cases hurl : a.url = ""
  · rw [if_pos hurl]; exact hc
  · rw [if_neg hurl]
    cases hcv : (getCachedSummary urlHash dbFail s a.url 24).1 with
    | some cached => exact hc
    | none =>
      cases hf : fetchOracle a.url with
      | none => exact hc
      | some content =>
        cases putFail with
        | true => exact hc
        | false =>
          intro e he
          have he' : e ∈ s.cache.filter
              (fun e1 => !(e1.urlHash == urlHash a.url)) ++
              [⟨urlHash a.url, a.url, generateGptSummary genOracle
                (trimArticleContent precise countTokens content) budget,
                s.now⟩] := he
          rcases List.mem_append.1 he' with h1 | h1
          · exact hc e (List.mem_filter.1 h1).1
          · rw [List.mem_singleton] at h1
            rw [h1]
            exact generateGptSummary_ne_empty genOracle _ budget hgen

theorem enhanceOne_summary_nonempty (urlHash : String → String)
    (fetchOracle : String → Option String)
    (genOracle : String → Nat → Option String) (countTokens : String → Nat)
    (precise dbFail putFail : Bool) (budget : Nat)
    (a : EnhArticle) (s : EnhState)
    (hurl : a.url ≠ "")
    (hc : ∀ e ∈ s.cache, e.summary ≠ "")
    (hgen : ∀ u b r, genOracle u b = some r → pyStripStr r ≠ "")
    (hsnip : a.snippet ≠ some "") :
    ∃ str, (enhanceOne urlHash fetchOracle genOracle countTokens precise
      dbFail putFail budget a s).1.summary = some str ∧ str ≠ "" := by
  rw [enhanceOne, if_neg hurl]
  cases hcv : (getCachedSummary urlHash dbFail s a.url 24).1 with
  | some cached =>
    refine ⟨cached, rfl, ?_⟩
    cases dbFail with
    | true =>
      rw [getCachedSummary_true_eq] at hcv
      simp at hcv
    | false =>
      rw [getCachedSummary_false_eq] at hcv
      have hcv' : cacheLookup (urlHash a.url) (s.now - 24) s.cache =
        some cached := hcv
      rw [cacheLookup, Option.map_eq_some'] at hcv'
      obtain ⟨e, hfind, hesum⟩ := hcv'
      exact hesum ▸ hc e (List.mem_of_find?_eq_some hfind)
  | none =>
    cases hf : fetchOracle a.url with
    | none =>
      refine ⟨a.snippet.getD fetchFailedDefault, rfl, ?_⟩
      cases hsn : a.snippet with
      | none => decide
      | some str =>
        intro hemp
        rw [Option.getD_some] at hemp
        exact hsnip (hsn.trans (by rw [hemp]))
    | some content =>
      exact ⟨generateGptSummary genOracle
          (trimArticleContent precise countTokens content) budget, rfl,
        generateGptSummary_ne_empty genOracle _ budget hgen⟩

theorem enhanceArticlesLoop_summaries (urlHash : String → String)
    (fetchOracle : String → Option String)
    (genOracle : String → Nat → Option String) (countTokens : String → Nat)
    (precise dbFail putFail : Bool) (budget : Nat) :
    ∀ (articles : List EnhArticle) (s : EnhState),
      (∀ e ∈ s.cache, e.summary ≠ "") →
      (∀ u b r, genOracle u b = some r → pyStripStr r ≠ "") →
      (∀ a ∈ articles, a.url ≠ "" ∧ a.snippet ≠ some "") →
      ∀ a1 ∈ (enhanceArticlesLoop urlHash fetchOracle genOracle countTokens
        precise dbFail putFail budget articles s).1,
        ∃ str, a1.summary = some str ∧ str ≠ "" := by
  intro articles
  induction articles with
  | nil =>
    intro s _ _ _ a1 ha1
    rw [enhanceArticlesLoop] at ha1
    exact absurd ha1 (List.not_mem_nil a1)
  | cons a rest ih =>
    intro s hc hgen harts a1 ha1
    rw [enhanceArticlesLoop] at ha1
    rcases List.mem_cons.1 ha1 with h1 | h1
    · exact h1.symm ▸ enhanceOne_summary_nonempty urlHash fetchOracle
        genOracle countTokens precise dbFail putFail budget a s
        (harts a (List.mem_cons_self a rest)).1 hc hgen
        (harts a (List.mem_cons_self a rest)).2
    · exact ih _ (enhanceOne_cache_nonempty urlHash fetchOracle genOracle
        countTokens precise dbFail putFail budget a s hc hgen) hgen
        (fun x hx => harts x (List.mem_cons_of_mem _ hx)) a1 h1

/-- Claim C7, counterexample to the claim as stated: an article whose
snippet key holds the empty string and whose fetch fails is returned with
`summary = ""` — an empty summary (the `(fetch failed)` placeholder is used
only when the snippet key is absent). -/
theorem C7_counterexample :
    ((enhanceArticles (fun u => u) (fun _ => none) (fun _ _ => none)
        (fun _ => 0) true false false
        [{ url := "http://x.com", snippet := some "" }]
        { cache := [], now := 0, fetchCount := 0, genCount := 0 }).1.map
      (fun a => a.summary)) = [some ""] := rfl

/-- Claim C7 as amended: after enhancement every returned article whose URL
is non-empty carries a summary — the cached or generated brief, the original
snippet, or a failure placeholder — and that summary is non-empty provided
the article's snippet is not the empty string, every backend-returned
summary is non-empty after stripping, and the pre-existing cache holds no
empty summary. (The code's fallback is the snippet itself even when empty,
and articles without a URL are returned unchanged, so the claim's
unconditional non-emptiness fails.) -/
theorem C7_enhanced_summaries (urlHash : String → String)
    (fetchOracle : String → Option String)
    (genOracle : String → Nat → Option String) (countTokens : String → Nat)
    (precise dbFail putFail : Bool)
    (articles : List EnhArticle) (s : EnhState)
    (hc : ∀ e ∈ s.cache, e.summary ≠ "")
    (hgen : ∀ u b r, genOracle u b = some r → pyStripStr r ≠ "")
    (harts : ∀ a ∈ articles, a.url ≠ "" ∧ a.snippet ≠ some "") :
    ∀ a1 ∈ (enhanceArticles urlHash fetchOracle genOracle countTokens precise
      dbFail putFail articles s).1,
      ∃ str, a1.summary = some str ∧ str ≠ "" := by
  rw [enhanceArticles]
  by_cases hne : articles.isEmpty = true
  · rw [if_pos hne]
    intro a1 ha1
    rw [List.isEmpty_iff] at hne
    rw [hne] at ha1
    exact absurd ha1 (List.not_mem_nil a1)
  · rw [if_neg hne]
    exact enhanceArticlesLoop_summaries urlHash fetchOracle genOracle
      countTokens precise dbFail putFail
      (calculatePerArticleBudget precise articles.length) articles s hc hgen
      harts

/-- Witness for `C7_enhanced_summaries`: one article with URL and non-empty
snippet, a succeeding fetch and a non-empty generated brief. -/
theorem C7_enhanced_summaries_witness :
    (∀ e ∈ ({ cache := [], now := 0, fetchCount := 0, genCount := 0 } :
        EnhState).cache, e.summary ≠ "") ∧
    (∀ u b r, (fun (_ : String) (_ : Nat) => some "the brief") u b = some r →
      pyStripStr r ≠ "") ∧
    (∀ a ∈ ([{ url := "http://x.com", snippet := some "snippet text" }] :
        List EnhArticle), a.url ≠ "" ∧ a.snippet ≠ some "") ∧
    ∀ a1 ∈ (enhanceArticles (fun u => u) (fun _ => some "fetched body")
        (fun _ _ => some "the brief") (fun _ => 0) false false false
        [{ url := "http://x.com", snippet := some "snippet text" }]
        { cache := [], now := 0, fetchCount := 0, genCount := 0 }).1,
      ∃ str, a1.summary = some str ∧ str ≠ "" :=
  ⟨by decide,
   fun u b r h => by rw [← Option.some.inj h]; decide,
   by decide,
   C7_enhanced_summaries (fun u => u) (fun _ => some "fetched body")
     (fun _ _ => some "the brief") (fun _ => 0) false false false
     [{ url := "http://x.com", snippet := some "snippet text" }]
     { cache := [], now := 0, fetchCount := 0, genCount := 0 }
     (by decide) (fun u b r h => by rw [← Option.some.inj h]; decide)
     (by decide)⟩

/-- Claim C10, counterexample to the claim as stated: a two-chunk synthesis
run whose first chunk synthesis call fails performs exactly one synthesis
call and aborts with the re-raised error — the second chunk is never
processed and no degraded per-chunk result is produced, contradicting
"recovered locally ... continue the batch". -/
theorem C10_counterexample :
    (splitTextIntoChunks 5 ['a', 'a', '.', ' ', 'b', 'b']).length = 2 ∧
    (generateChunkedAudio (fun _ _ => none) 5
      ['a', 'a', '.', ' ', 'b', 'b']).1 =
      .error "chunk synthesis failed" ∧
    (generateChunkedAudio (fun _ _ => none) 5
      ['a', 'a', '.', ' ', 'b', 'b']).2 = 1 := by
  refine ⟨rfl, rfl, rfl⟩

/-- Claim C10 as amended: a failure of a single chunk's speech-synthesis
call is NOT recovered locally: if the chunks at positions below `j` succeed
and the one at `j` fails, the loop performs exactly `j + 1` synthesis calls
(the chunks after `j` are never attempted), the already generated chunk
files are cleaned up, and the error is re-raised, aborting the synthesis
run. -/
theorem C10_chunk_failure_aborts (synth : Nat → List Char → Option String)
    (chunks : List (List Char)) :
    ∀ (i j : Nat) (hj : j < chunks.length),
      (∀ k (hk : k < j), synth (i + k)
        (chunks.get ⟨k, lt_trans hk hj⟩) ≠ none) →
      synth (i + j) (chunks.get ⟨j, hj⟩) = none →
      runSynthChunks synth i chunks =
        (.error "chunk synthesis failed", j + 1) := by
  induction chunks with
  | nil =>
    intro i j hj
    exact absurd hj (Nat.not_lt_zero j)
  | cons c cs ih =>
    intro i j hj hok hfail
    cases j with
    | zero =>
      rw [Nat.add_zero] at hfail
      have hc : synth i c = none := hfail
      rw [runSynthChunks, hc]
    | succ j' =>
      have hc : synth i c ≠ none := by
        have h0 := hok 0 (Nat.succ_pos j')
        rw [Nat.add_zero] at h0
        exact h0
      cases hsc : synth i c with
      | none => exact absurd hsc hc
      | some file =>
        have hj' : j' < cs.length := Nat.lt_of_succ_lt_succ hj
        have hrec := ih (i + 1) j' hj'
          (fun k hk => by
            have hkk := hok (k + 1) (Nat.succ_lt_succ hk)
            rw [show i + (k + 1) = i + 1 + k by omega] at hkk
            exact hkk)
          (by
            have := hfail
            rw [show i + (j' + 1) = i + 1 + j' by omega] at this
            exact this)
        rw [runSynthChunks, hsc, hrec]
        rfl

/-- Witness for `C10_chunk_failure_aborts`: two chunks, the first succeeds,
the second fails; exactly two synthesis calls, aborted run. -/
theorem C10_chunk_failure_aborts_witness :
    (1 < ([['a'], ['b']] : List (List Char)).length) ∧
    (runSynthChunks
        (fun i _ => if i == 0 then some "chunk_file_0" else none) 0
        [['a'], ['b']] =
      (.error "chunk synthesis failed", 2)) :=
  ⟨by decide,
   C10_chunk_failure_aborts
     (fun i _ => if i == 0 then some "chunk_file_0" else none)
     [['a'], ['b']] 0 1 (by decide)
     (by decide)
     (by decide)⟩

set_option maxRecDepth 10000 in
/-- Witness for `C2_combine_chunks`: two chunks, the second exactly 1024
bytes of value 7; combined length `1 + 0 = 1 = 1025 - 1024`. -/
theorem C2_combine_chunks_witness :
    (2 ≤ ([[3], List.replicate 1024 7] : List (List Nat)).length) ∧
    (∀ c ∈ ([[3], List.replicate 1024 7] : List (List Nat)).tail,
      1024 ≤ c.length) ∧
    (combineAudioChunks [[3], List.replicate 1024 7] =
        .ok (simpleCombineChunks [[3], List.replicate 1024 7]) ∧
      (simpleCombineChunks [[3], List.replicate 1024 7]).length +
          1024 * (([[3], List.replicate 1024 7] :
            List (List Nat)).length - 1) =
        (([[3], List.replicate 1024 7] :
          List (List Nat)).map List.length).sum ∧
      ∀ c, combineAudioChunks [c] = .ok c) :=
  ⟨by decide, by decide, C2_combine_chunks _ (by decide) (by decide)⟩

/-- Witness for `C3_chunk_bound`: the text `ab. cd` at maximum 5 — every
word plus a trailing space fits, and every produced chunk is within the
bound. -/
theorem C3_chunk_bound_witness :
    (∀ s ∈ splitDotSpace ['a', 'b', '.', ' ', 'c', 'd'],
      ∀ w ∈ pyWords s, w.length + 1 ≤ 5) ∧
    ∀ c ∈ splitTextIntoChunks 5 ['a', 'b', '.', ' ', 'c', 'd'],
      c.length ≤ 5 + 1 ∨ c = pyStrip ['a', 'b', '.', ' ', 'c', 'd'] :=
  ⟨by decide, C3_chunk_bound 5 ['a', 'b', '.', ' ', 'c', 'd'] (by decide)⟩
